import Mathlib

/-!
Verification of the omero2pandas core against its specification.

This file gives a shallow embedding, in Lean 4, of the parts of the
omero2pandas code base that the specification's testable claims are about:

* `omero2pandas/__init__.py`: argument validation shared by the table-open
  entry points (`_validate_requested_object`) and the chunked fetch loop of
  `read_table`.
* `omero2pandas/upload.py`: `optimal_chunk_size`, schema inference for
  DataFrame and CSV sources (`generate_omero_columns`,
  `generate_omero_columns_csv`) and the `create_table` push flow.
* `omero2pandas/remote.py`: `_check_response` and the `register_table`
  HTTP handshake.
* `omero2pandas/connect.py`: `OMEROConnection.connect`.
* `omero2pandas/io_tools.py`: the `OriginalFileIO` reader.

Machine integers are modelled as `Int`/`Nat` (Python integers are unbounded,
so no wrap-around is needed), Python `None` as `Option`, and raised
exceptions as `Except`. Network and filesystem effects are modelled by
explicit oracle parameters plus event traces, so that ordering claims
("validation happens before any network call") become statements about the
produced trace.
-/

namespace Omero2Pandas

/-! ## Python helper semantics -/

/-- Python values that can be passed as a `file_id` / `annotation_id`
argument: an integer or a string (other types raise and are not needed by
any claim). -/
inductive PyVal where
  | int (n : Int)
  | str (s : String)
deriving DecidableEq, Repr

/-- Python truthiness of an optional id value: `None`, `0` and the empty
string are falsy, everything else is truthy. -/
def pyTruthy : Option PyVal → Bool
  | none => false
  | some (PyVal.int n) => n != 0
  | some (PyVal.str s) => s != ""

/-- Python `str.isnumeric` restricted to ASCII digit strings. -/
def isNumericStr (s : String) : Bool :=
  s != "" && s.toList.all Char.isDigit

/-- Python `str.lower`. -/
def pyLower (s : String) : String :=
  String.mk (s.data.map Char.toLower)

/-- Python `str.capitalize`: first character uppercased, the remainder
lowercased. -/
def pyCapitalize (s : String) : String :=
  match s.data with
  | [] => ""
  | c :: rest => String.mk (Char.toUpper c :: rest.map Char.toLower)

/-- Python `str.replace` on character lists, for a non-empty pattern:
replace every non-overlapping occurrence, scanning left to right. The
fuel argument (instantiated with the list length, which every step
consumes at least one unit of) keeps the recursion structural so that
terms reduce definitionally. -/
def replaceGo (pat rep : List Char) : Nat → List Char → List Char
  | 0, l => l
  | _ + 1, [] => []
  | fuel + 1, c :: rest =>
    if pat.isPrefixOf (c :: rest) then
      rep ++ replaceGo pat rep fuel ((c :: rest).drop pat.length)
    else
      c :: replaceGo pat rep fuel rest

/-- Python `str.replace(pat, rep)` (for the non-empty patterns this code
base uses). -/
def pyReplace (s pat rep : String) : String :=
  if pat.data = [] then s
  else String.mk (replaceGo pat.data rep.data s.data.length s.data)

/-! ## `_validate_requested_object` (omero2pandas/__init__.py lines 520-538) -/

/-- The two addressing modes a table-open call can resolve to. -/
inductive ObjectKind where
  | originalFile
  | fileAnnot
deriving DecidableEq, Repr

/-- Errors raised by the validation helper (`ValueError` / failed
`assert` in the Python source, identified by their message). -/
inductive ValidateErr where
  | bothSupplied
  | neitherSupplied
  | idNotNumber
  | idNotInteger
deriving DecidableEq, Repr

/-- The trailing `isinstance` checks of `_validate_requested_object`:
string ids must be numeric and are converted to int, integer ids pass
through. -/
def coerceObjectId (v : PyVal) (kind : ObjectKind) :
    Except ValidateErr (Int × ObjectKind) :=
  match v with
  | PyVal.str s =>
    if isNumericStr s then Except.ok ((s.toNat?.getD 0 : Int), kind)
    else Except.error ValidateErr.idNotNumber
  | PyVal.int n => Except.ok (n, kind)

/-- Shallow embedding of `_validate_requested_object(file_id, annotation_id)`:
`if file_id and annotation_id: raise`, `elif file_id is not None: ...`,
`elif annotation_id is not None: ...`, `else: raise`, then string ids must
be numeric and are converted to int. -/
def validateRequestedObject (fileId annotId : Option PyVal) :
    Except ValidateErr (Int × ObjectKind) :=
  if pyTruthy fileId && pyTruthy annotId then
    Except.error ValidateErr.bothSupplied
  else
    match fileId, annotId with
    | some v, _ => coerceObjectId v ObjectKind.originalFile
    | none, some v => coerceObjectId v ObjectKind.fileAnnot
    | none, none => Except.error ValidateErr.neitherSupplied

/-- Events of a table-open entry point that touch the network. -/
inductive CallEvent where
  | connect
  | openTable
deriving DecidableEq, Repr

/-- Common prelude shared by the six table-open entry points (`read_table`,
`get_table_size`, `get_table_columns`, `download_table`, `read_csv`,
`download_csv`): each calls `_validate_requested_object` first and only
afterwards enters `with get_connection(...)`. An error therefore carries an
empty event trace, a success records the connection and table-open events. -/
def tableOpenCall (fileId annotId : Option PyVal) :
    Except ValidateErr (List CallEvent × Int × ObjectKind) :=
  match validateRequestedObject fileId annotId with
  | Except.error e => Except.error e
  | Except.ok (oid, kind) =>
    Except.ok ([CallEvent.connect, CallEvent.openTable], oid, kind)

/-! ## `optimal_chunk_size` (omero2pandas/upload.py lines 73-78) -/

/-- Shallow embedding of `optimal_chunk_size(column_count)`. The second
component records whether the `LOGGER.warning` diagnostic about limiting the
chunk size fired (`rows > 50000`). Python `//` on nonnegative ints is `Nat`
division. -/
def optimalChunkSize (columnCount : Nat) : Nat × Bool :=
  let rows := 2000000 / columnCount
  (max (min rows 50000) 1, decide (rows > 50000))

/-! ## Schema inference (omero2pandas/upload.py) -/

/-- The `omero.grid` column classes that schema inference can produce.
`field` and `wellsample` both map to the image column class, exactly as in
`SPECIAL_NAMES`. -/
inductive GridColumnType where
  | long
  | double
  | text
  | bool
  | roi
  | image
  | dataset
  | well
  | plate
deriving DecidableEq, Repr

/-- `SPECIAL_NAMES` (upload.py lines 21-29): recognized relationship column
names and the entity-reference column class each maps to. -/
def specialNames (name : String) : Option GridColumnType :=
  if name = "roi" then some GridColumnType.roi
  else if name = "image" then some GridColumnType.image
  else if name = "dataset" then some GridColumnType.dataset
  else if name = "well" then some GridColumnType.well
  else if name = "field" then some GridColumnType.image
  else if name = "wellsample" then some GridColumnType.image
  else if name = "plate" then some GridColumnType.plate
  else none

/-- `COLUMN_TYPES` (upload.py lines 31-39): numpy dtype kind character to
column class. -/
def columnTypes (kind : Char) : Option GridColumnType :=
  if kind = 'i' then some GridColumnType.long
  else if kind = 'u' then some GridColumnType.long
  else if kind = 'f' then some GridColumnType.double
  else if kind = 'O' then some GridColumnType.text
  else if kind = 'S' then some GridColumnType.text
  else if kind = 'U' then some GridColumnType.text
  else if kind = 'b' then some GridColumnType.bool
  else none

/-- Column-class selection of `generate_omero_columns` (upload.py lines
85-93): case-insensitive special-name lookup (`column_name.lower()`),
guarded by integer dtype kind, then the plain dtype table. -/
def dfColumnClass (name : String) (kind : Char) :
    Except String GridColumnType :=
  if (specialNames (pyLower name)).isSome && kind = 'i' then
    Except.ok ((specialNames (pyLower name)).getD GridColumnType.long)
  else
    match columnTypes kind with
    | some c => Except.ok c
    | none => Except.error "Column type not supported"

/-- Column-class selection of `generate_omero_columns_csv` (upload.py lines
116-124): identical to the DataFrame path except that the special-name
lookup is case-sensitive (`column_name in SPECIAL_NAMES`, no `.lower()`). -/
def csvColumnClass (name : String) (kind : Char) :
    Except String GridColumnType :=
  if (specialNames name).isSome && kind = 'i' then
    Except.ok ((specialNames name).getD GridColumnType.long)
  else
    match columnTypes kind with
    | some c => Except.ok c
    | none => Except.error "Column type not supported"

/-- A cell of a pandas column as far as string-width inference sees it:
a present string, or missing (`NaN` / non-string, for which
`.str.len()` yields `NaN`). -/
inductive Cell where
  | str (s : String)
  | missing
deriving DecidableEq, Repr

/-- `column.str.len().max()`: the maximum length over present strings,
`none` when every cell is missing (pandas `max` skips `NaN` and yields
`NaN` on an all-`NaN` column). -/
def strLenMax (cells : List Cell) : Option Nat :=
  match cells with
  | [] => none
  | Cell.str s :: rest => some (max s.length ((strLenMax rest).getD 0))
  | Cell.missing :: rest => strLenMax rest

/-- The maximum present-string length over a column, `0` when every cell is
missing. -/
def presentMax (cells : List Cell) : Nat :=
  (strLenMax cells).getD 0

/-- Whether the column has at least one present (string) cell. -/
def hasPresent (cells : List Cell) : Bool :=
  (strLenMax cells).isSome

/-- The per-chunk width contribution in both inference paths:
`max_len = chunk[col].str.len().max(); if math.isnan(max_len): max_len = 1`. -/
def chunkWidth (cells : List Cell) : Nat :=
  match strLenMax cells with
  | none => 1
  | some m => m

/-- Text width assigned by the DataFrame path `generate_omero_columns`
(upload.py lines 94-99): one scan of the whole (already materialized)
source. -/
def dfTextWidth (cells : List Cell) : Nat :=
  chunkWidth cells

/-- Structural worker for `chunksOf`; the fuel is instantiated with the
list length, of which every step consumes at least one unit. -/
def chunksOfGo (cs : Nat) : Nat → List Cell → List (List Cell)
  | 0, _ => []
  | fuel + 1, cells =>
    if cells = [] then []
    else cells.take cs :: chunksOfGo cs fuel (cells.drop cs)

/-- `pd.read_csv(..., chunksize=cs)`: split a column into consecutive
chunks of `cs` rows (`cs = 0` is a pandas error and yields no chunks). -/
def chunksOf (cs : Nat) (cells : List Cell) : List (List Cell) :=
  if cs = 0 then [] else chunksOfGo cs cells.length cells

/-- Text width assigned by the CSV path `generate_omero_columns_csv`
(upload.py lines 126-147): the initial scan of the first `scanRows` rows
seeds the width, then the full-file rescan folds
`size = max(max_len, size)` over consecutive chunks of `cs` rows. -/
def csvTextWidth (cells : List Cell) (scanRows cs : Nat) : Nat :=
  (chunksOf cs cells).foldl
    (fun size chunk => max (chunkWidth chunk) size)
    (chunkWidth (cells.take scanRows))

/-- One column of a pandas DataFrame (or of the DataFrame pandas produces
from a CSV file): its name, its numpy dtype kind character, and its cells as
string-width inference sees them. -/
structure DfColumn where
  name : String
  kind : Char
  cells : List Cell
deriving DecidableEq, Repr

/-- An `omero.grid` column descriptor produced by schema inference: cleaned
name, column class, and (for text columns) the inferred width. -/
structure GridColumn where
  name : String
  ctype : GridColumnType
  size : Nat
deriving DecidableEq, Repr

/-- Number of rows of a DataFrame given as a column list (`len(df)`). -/
def dfRowCount (cols : List DfColumn) : Nat :=
  match cols with
  | [] => 0
  | c :: _ => c.cells.length

/-- Shallow embedding of `generate_omero_columns(df)` (upload.py lines
81-103): per column, pick the class (case-insensitive special names, then
the dtype table), clean the name, and for string columns record the name
and compute the width over the whole materialized source. -/
def generateOmeroColumns (df : List DfColumn) :
    Except String (List GridColumn × List String) :=
  match df with
  | [] => Except.ok ([], [])
  | col :: rest => do
    let cls ← dfColumnClass col.name col.kind
    let (cols, strs) ← generateOmeroColumns rest
    let cleaned := pyReplace col.name "/" "\\"
    if cls = GridColumnType.text then
      Except.ok (⟨cleaned, cls, dfTextWidth col.cells⟩ :: cols, col.name :: strs)
    else
      Except.ok (⟨cleaned, cls, 0⟩ :: cols, strs)

/-- The column list and string-column names of `generate_omero_columns_csv`
(upload.py lines 114-147) with the pass-2 rescan folded in per string
column: initial width from the first `scanRows` rows, then
`size = max(max_len, size)` over full-file chunks of `cs` rows. -/
def csvColumns (df : List DfColumn) (scanRows cs : Nat) :
    Except String (List GridColumn × List String) :=
  match df with
  | [] => Except.ok ([], [])
  | col :: rest => do
    let cls ← csvColumnClass col.name col.kind
    let (cols, strs) ← csvColumns rest scanRows cs
    let cleaned := pyReplace col.name "/" "\\"
    if cls = GridColumnType.text then
      Except.ok (⟨cleaned, cls, csvTextWidth col.cells scanRows cs⟩ :: cols,
                 col.name :: strs)
    else
      Except.ok (⟨cleaned, cls, 0⟩ :: cols, strs)

/-- Shallow embedding of `generate_omero_columns_csv(csv_path, chunk_size)`
(upload.py lines 106-149). The initial scan reads `chunk_size or 1000`
rows; a `None` chunk size is replaced by `optimal_chunk_size` over the
column count; the rescan also counts the rows. Returns
`(columns, string column names, row count, chunk size)`. -/
def generateOmeroColumnsCsv (df : List DfColumn) (chunkSize : Option Nat) :
    Except String (List GridColumn × List String × Nat × Nat) :=
  let scanRows :=
    match chunkSize with
    | none => 1000
    | some 0 => 1000
    | some n => n
  let cs :=
    match chunkSize with
    | none => (optimalChunkSize df.length).1
    | some n => n
  do
    let (cols, strs) ← csvColumns df scanRows cs
    Except.ok (cols, strs, dfRowCount df, cs)

/-! ## `create_table` (omero2pandas/upload.py lines 152-255) -/

/-- Structural worker for `rangeStep`; the fuel is instantiated with
`stop - start`, of which every step consumes at least one unit. -/
def rangeStepGo (step : Nat) : Nat → Nat → Nat → List Nat
  | 0, _, _ => []
  | fuel + 1, s, stop => if stop ≤ s then [] else s :: rangeStepGo step fuel (s + step) stop

/-- Python `range(start, stop, step)` for a positive step (`step = 0` is a
Python error and yields no indices here). -/
def rangeStep (start stop step : Nat) : List Nat :=
  if step = 0 then [] else rangeStepGo step (stop - start) start stop

/-- `OBJECT_TYPES` (upload.py lines 51-70): link target types accepted by
`create_table`. -/
def objectTypes : List String :=
  ["Image", "Dataset", "Plate", "Project", "Screen", "Well", "Roi",
   "BooleanAnnotation", "CommentAnnotation", "DoubleAnnotation",
   "FileAnnotation", "ListAnnotation", "LongAnnotation", "MapAnnotation",
   "TagAnnotation", "TermAnnotation", "TimestampAnnotation",
   "XmlAnnotation"]

/-- Link-type normalization of `create_table` (upload.py line 155):
`t.lower().capitalize().replace("annotation", "Annotation")`. -/
def normalizeLinkType (t : String) : String :=
  pyReplace (pyCapitalize (pyLower t)) "annotation" "Annotation"

/-- Normalization of one `(type, id)` link pair. -/
def normalizeLink (p : String × Int) : String × Int :=
  (normalizeLinkType p.1, p.2)

/-- Errors raised by `create_table`. -/
inductive UploadErr where
  | unsupportedLinkType (t : String)
  | targetNotFound (t : String) (i : Int)
  | groupMismatch
  | unsupportedColumn (msg : String)
  | annotSaveFailed
  | linkSaveFailed
deriving DecidableEq, Repr

/-- Remote/source events of the push flow, in issue order. `readChunk` is
the only event that scans rows of the source data. -/
inductive PushEvent where
  | findTarget (t : String) (i : Int)
  | inferSchema
  | newTable
  | initTable
  | readChunk (rows : Nat)
  | addData (rows : Nat)
  | saveAnnot
  | saveLinks
  | closeTable
deriving DecidableEq, Repr

/-- The source argument of `create_table`: a pandas DataFrame or the path
of an existing CSV file (named by the columns pandas would parse). -/
inductive TableSource where
  | dataFrame (cols : List DfColumn)
  | csvFile (cols : List DfColumn)
deriving DecidableEq, Repr

/-- Oracle for the remote calls `create_table` issues: target resolution
(`find` returning the target's group id, `None` when absent) and the
success of the two `UpdateService` saves, plus the annotation id the server
would assign. -/
structure PushEnv where
  findGroup : String → Int → Option Int
  saveAnnotOk : Bool
  saveLinksOk : Bool
  annotId : Int

/-- The pre-flight link validation loop of `create_table` (upload.py lines
158-176): type check, then one `find` per target, first target fixes the
working group, later targets must match it. Returns the events issued and
the working group. -/
def validateLinks (find : String → Int → Option Int) :
    List (String × Int) → Option Int →
    List PushEvent × Except UploadErr (Option Int)
  | [], wg => ([], Except.ok wg)
  | (t, i) :: rest, wg =>
    if !(objectTypes.contains t) then
      ([], Except.error (UploadErr.unsupportedLinkType t))
    else
      match find t i with
      | none => ([PushEvent.findTarget t i],
                 Except.error (UploadErr.targetNotFound t i))
      | some g =>
        match wg with
        | none =>
          (PushEvent.findTarget t i :: (validateLinks find rest (some g)).1,
           (validateLinks find rest (some g)).2)
        | some w =>
          if w ≠ g then
            ([PushEvent.findTarget t i], Except.error UploadErr.groupMismatch)
          else
            (PushEvent.findTarget t i :: (validateLinks find rest (some w)).1,
             (validateLinks find rest (some w)).2)

/-- Schema inference step of `create_table` (upload.py lines 187-201):
CSV sources go through `generate_omero_columns_csv`; DataFrame sources
through `generate_omero_columns`, with `len(source)` rows and a defaulted
chunk size. -/
def inferSource (source : TableSource) (chunkSize : Option Nat) :
    Except String (List GridColumn × List String × Nat × Nat) :=
  match source with
  | TableSource.dataFrame cols => do
    let (gcols, strs) ← generateOmeroColumns cols
    let cs :=
      match chunkSize with
      | none => (optimalChunkSize gcols.length).1
      | some n => n
    Except.ok (gcols, strs, dfRowCount cols, cs)
  | TableSource.csvFile cols => generateOmeroColumnsCsv cols chunkSize

/-- Row counts of the consecutive source chunks transmitted by the upload
loop (`range(0, len(source), chunk_size)` slices, identically for the CSV
reader). -/
def chunkRowCounts (total cs : Nat) : List Nat :=
  (rangeStep 0 total cs).map (fun i => min cs (total - i))

/-- Shallow embedding of `create_table(source, table_name, links, conn,
chunk_size)`. Returns the trace of source/remote events in issue order and
the outcome (the new FileAnnotation id on success). The `finally` block is
reflected by `closeTable` ending every trace that reaches `newTable`. -/
def createTable (env : PushEnv) (source : TableSource)
    (links : List (String × Int)) (chunkSize : Option Nat) :
    List PushEvent × Except UploadErr Int :=
  let nlinks := links.map normalizeLink
  let vev := (validateLinks env.findGroup nlinks none).1
  match (validateLinks env.findGroup nlinks none).2 with
  | Except.error e => (vev, Except.error e)
  | Except.ok _wg =>
    match inferSource source chunkSize with
    | Except.error e =>
      (vev ++ [PushEvent.inferSchema], Except.error (UploadErr.unsupportedColumn e))
    | Except.ok (_cols, _strs, totalRows, cs) =>
      let upload :=
        (chunkRowCounts totalRows cs).foldr
          (fun k acc => PushEvent.readChunk k :: PushEvent.addData k :: acc) []
      let pre := vev ++ [PushEvent.inferSchema, PushEvent.newTable,
                         PushEvent.initTable] ++ upload
      if env.saveAnnotOk = false then
        (pre ++ [PushEvent.saveAnnot, PushEvent.closeTable],
         Except.error UploadErr.annotSaveFailed)
      else if env.saveLinksOk = false then
        (pre ++ [PushEvent.saveAnnot, PushEvent.saveLinks,
                 PushEvent.closeTable],
         Except.error UploadErr.linkSaveFailed)
      else
        (pre ++ [PushEvent.saveAnnot, PushEvent.saveLinks,
                 PushEvent.closeTable],
         Except.ok env.annotId)

/-! ## `register_table` / `_check_response` (omero2pandas/remote.py) -/

/-- JSON values, as much as the registration protocol needs. -/
inductive JVal where
  | jstr (s : String)
  | jnum (n : Int)
  | jobj (fields : List (String × JVal))

/-- Dictionary lookup `j[key]` on a JSON object (`none` when the key is
absent or the value is not an object). -/
def jget (j : JVal) (key : String) : Option JVal :=
  match j with
  | JVal.jobj fields => (fields.find? (fun p => p.1 == key)).map Prod.snd
  | _ => none

/-- An HTTP response as `_check_response` inspects it: status code, whether
the `content-type` header is `application/json`, and the decoded JSON body
(`none` when `response.json()` would raise). -/
structure HttpResponse where
  status : Nat
  jsonContentType : Bool
  body : Option JVal

/-- Errors raised on the registration path. `rejected status (some m)`
carries the machine-readable message extracted from a JSON body;
`rejected status none` is the generic status-derived fallback
(`<No further message>`). -/
inductive RemoteErr where
  | decodeFailed
  | rejected (status : Nat) (message : Option JVal)
  | keyMissing (key : String)

/-- Shallow embedding of `_check_response(response)` (remote.py lines
142-154): 2xx returns the decoded JSON body; otherwise a message is pulled
out of a JSON body when one is present (the `message` field if the object
has one, else the whole body) and an error is always raised
(`raise_for_status` / the final unconditional `HTTPError`). -/
def checkResponse (r : HttpResponse) : Except RemoteErr JVal :=
  if 200 ≤ r.status ∧ r.status < 300 then
    match r.body with
    | some j => Except.ok j
    | none => Except.error RemoteErr.decodeFailed
  else if r.jsonContentType then
    match r.body with
    | none => Except.error RemoteErr.decodeFailed
    | some j =>
      let msg := match jget j "message" with
        | some m => m
        | none => j
      Except.error (RemoteErr.rejected r.status (some msg))
  else
    Except.error (RemoteErr.rejected r.status none)

/-- The two HTTP requests of the registration handshake, in issue order. -/
inductive HsEvent where
  | getToken
  | postRegister
deriving DecidableEq, Repr

/-- Shallow embedding of the HTTP skeleton of `register_table` (remote.py
lines 116-139): `GET` the anti-forgery token and `_check_response` it,
build the headers from `token_data["data"]`, `POST` the registration and
`_check_response` it, then return `content["data"]["file_annotation"]`.
The two oracle arguments are the responses the server would give to the
`GET` and the `POST`. -/
def registerTable (tokenResp postResp : HttpResponse) :
    List HsEvent × Except RemoteErr JVal :=
  match checkResponse tokenResp with
  | Except.error e => ([HsEvent.getToken], Except.error e)
  | Except.ok tokenData =>
    match jget tokenData "data" with
    | none => ([HsEvent.getToken], Except.error (RemoteErr.keyMissing "data"))
    | some _csrf =>
      match checkResponse postResp with
      | Except.error e =>
        ([HsEvent.getToken, HsEvent.postRegister], Except.error e)
      | Except.ok content =>
        match jget content "data" with
        | none => ([HsEvent.getToken, HsEvent.postRegister],
                   Except.error (RemoteErr.keyMissing "data"))
        | some d =>
          match jget d "file_annotation" with
          | none => ([HsEvent.getToken, HsEvent.postRegister],
                     Except.error (RemoteErr.keyMissing "file_annotation"))
          | some ann => ([HsEvent.getToken, HsEvent.postRegister],
                         Except.ok ann)

/-! ## `OMEROConnection.connect` (omero2pandas/connect.py lines 133-175) -/

/-- The fields of an `OMEROConnection` that `connect` reads or writes.
`client`/`session` record whether the corresponding attribute is non-None. -/
structure ConnState where
  client : Bool
  session : Bool
  server : Option String
  username : Option String
  password : Option String
  sessionKey : Option String
deriving DecidableEq, Repr

/-- The `connected` property: `self.client is not None`. -/
def isConnected (st : ConnState) : Bool :=
  st.client

/-- `need_connection_details` (connect.py lines 122-131). -/
def needConnectionDetails (st : ConnState) : Bool :=
  if st.client then false
  else if st.server.isNone then true
  else if (st.username.isNone || st.password.isNone) && st.sessionKey.isNone
  then true
  else false

/-- How a `connect` call ends: returning `True`, returning `False`, the
interactive prompt path (which delegates to out-of-scope UI collaborators
and returns `False`), or one of the two raised exceptions. -/
inductive ConnectOutcome where
  | okTrue
  | returnedFalse
  | promptShown
  | insufficientDetails
  | notEnoughForSession
deriving DecidableEq, Repr

/-- Network calls `connect` can issue. -/
inductive ConnEvent where
  | newClient
  | joinSession
  | createSession
  | keepAlive
deriving DecidableEq, Repr

/-- Shallow embedding of `OMEROConnection.connect(interactive, keep_alive)`.
`joinOk`/`createOk` are oracles for whether `client.joinSession` /
`client.createSession` succeed. Returns the resulting field state, how the
call ends, and the network calls issued in order. -/
def omeroConnect (st : ConnState) (interactive keepAliveFlag : Bool)
    (joinOk createOk : Bool) :
    ConnState × ConnectOutcome × List ConnEvent :=
  if isConnected st then (st, ConnectOutcome.okTrue, [])
  else if needConnectionDetails st then
    if interactive then (st, ConnectOutcome.promptShown, [])
    else (st, ConnectOutcome.insufficientDetails, [])
  else
    let st1 := { st with client := true }
    match st1.sessionKey with
    | some _ =>
      if joinOk then
        ({ st1 with session := true }, ConnectOutcome.okTrue,
         [ConnEvent.newClient, ConnEvent.joinSession]
           ++ if keepAliveFlag then [ConnEvent.keepAlive] else [])
      else
        ({ st1 with client := false, session := false },
         ConnectOutcome.returnedFalse,
         [ConnEvent.newClient, ConnEvent.joinSession])
    | none =>
      match st1.username with
      | some _ =>
        if createOk then
          ({ st1 with session := true }, ConnectOutcome.okTrue,
           [ConnEvent.newClient, ConnEvent.createSession]
             ++ if keepAliveFlag then [ConnEvent.keepAlive] else [])
        else
          ({ st1 with client := false, session := false },
           ConnectOutcome.returnedFalse,
           [ConnEvent.newClient, ConnEvent.createSession])
      | none =>
        ({ st1 with client := false, session := false },
         ConnectOutcome.notEnoughForSession, [ConnEvent.newClient])

/-! ## `OriginalFileIO` (omero2pandas/io_tools.py) -/

/-- The reader state: the byte content of the remote `OriginalFile`
(`self._size` is its length) and the current offset (a Python int, so it is
modelled as `Int` before clamping). -/
structure FileReader where
  file : List Nat
  offset : Int
deriving DecidableEq, Repr

/-- `self._size`. -/
def fsize (r : FileReader) : Nat :=
  r.file.length

/-- Reader state right after `__init__`: offset 0. -/
def initReader (file : List Nat) : FileReader :=
  { file := file, offset := 0 }

/-- Shallow embedding of `OriginalFileIO.read(size)` (io_tools.py lines
59-73): `-1` means read-to-end, the request is clamped to the remaining
bytes, a zero request or an at-end offset returns `b""` without moving, and
otherwise the server read returns the requested window and the offset
advances by its size. -/
def readBytes (r : FileReader) (sz : Int) : FileReader × List Nat :=
  let sz1 : Int := if sz = -1 then (fsize r : Int) - r.offset else sz
  let sz2 : Int := min sz1 ((fsize r : Int) - r.offset)
  if sz2 = 0 ∨ r.offset ≥ (fsize r : Int) then (r, [])
  else
    ({ r with offset := r.offset + sz2 },
     (r.file.drop r.offset.toNat).take sz2.toNat)

/-- The three `whence` modes of `seek`. -/
inductive Whence where
  | seekSet
  | seekCur
  | seekEnd
deriving DecidableEq, Repr

/-- Shallow embedding of `OriginalFileIO.seek(offset, whence)` (io_tools.py
lines 84-97): compute the raw target, then clamp into `[0, size]`. -/
def seekTo (r : FileReader) (off : Int) (w : Whence) : FileReader :=
  let o : Int :=
    match w with
    | Whence.seekSet => off
    | Whence.seekCur => r.offset + off
    | Whence.seekEnd => (fsize r : Int) - off
  let o1 := if o > (fsize r : Int) then (fsize r : Int) else o
  let o2 := if o1 < 0 then 0 else o1
  { r with offset := o2 }

/-- One reader operation: a `read` or a `seek`. -/
inductive FileOp where
  | read (sz : Int)
  | seek (off : Int) (w : Whence)
deriving DecidableEq, Repr

/-- State reached after one operation. -/
def applyOp (r : FileReader) (op : FileOp) : FileReader :=
  match op with
  | FileOp.read sz => (readBytes r sz).1
  | FileOp.seek off w => seekTo r off w

/-- State reached after a sequence of operations. -/
def applyOps (r : FileReader) (ops : List FileOp) : FileReader :=
  ops.foldl applyOp r

/-- A read request is well-formed in the `io.RawIOBase` sense when its size
is `-1` (read all) or nonnegative; seeks are unrestricted. -/
def opValid (op : FileOp) : Prop :=
  match op with
  | FileOp.read sz => -1 ≤ sz
  | FileOp.seek _ _ => True

instance (op : FileOp) : Decidable (opValid op) := by
  cases op with
  | read sz => exact inferInstanceAs (Decidable (-1 ≤ sz))
  | seek off w => exact inferInstanceAs (Decidable True)

/-- The offset invariant of the reader. -/
def readerInv (r : FileReader) : Prop :=
  0 ≤ r.offset ∧ r.offset ≤ (fsize r : Int)

instance (r : FileReader) : Decidable (readerInv r) :=
  inferInstanceAs (Decidable (_ ∧ _))

/-! ## The chunked fetch loop of `read_table`
(omero2pandas/__init__.py lines 163-186) -/

/-- `data_buffer[col.name] += col.values` on a `defaultdict(list)`:
append to the entry when the key exists (Python dicts keep insertion order
and updates do not move a key), insert at the end otherwise. -/
def bufAdd {α : Type} (buf : List (String × List α)) (name : String)
    (vs : List α) : List (String × List α) :=
  match buf with
  | [] => [(name, vs)]
  | (n, u) :: rest =>
    if n = name then (n, u ++ vs) :: rest
    else (n, u) :: bufAdd rest name vs

/-- The windows `read_table` fetches in the full-row-range case: for each
`start` in `range(0, num_rows, chunk_size)`, the window
`[start, min(start + chunk_size, num_rows))`. -/
def fetchWindows (numRows cs : Nat) : List (Nat × Nat) :=
  (rangeStep 0 numRows cs).map (fun s => (s, min (s + cs) numRows))

/-- One remote `data_table.read(target_cols, start, end)`: per column the
values of rows `[start, end)`, plus the returned row numbers. -/
def readWindow {α : Type} (cols : List (String × List α)) (s e : Nat) :
    List (String × List α) × List Nat :=
  (cols.map (fun p => (p.1, (p.2.drop s).take (e - s))),
   List.range' s (e - s))

/-- One iteration of the download loop of `read_table`: issue the window's
remote read, append every returned column into `data_buffer` and the
returned row numbers into `index_buffer`. -/
def fetchStep {α : Type} (cols : List (String × List α))
    (acc : List (String × List α) × List Nat) (w : Nat × Nat) :
    List (String × List α) × List Nat :=
  let data := readWindow cols w.1 w.2
  (data.1.foldl (fun b p => bufAdd b p.1 p.2) acc.1, acc.2 ++ data.2)

/-- The accumulation loop of `read_table` over the full row range: fold the
windows, starting from an empty buffer. -/
def fetchAll {α : Type} (cols : List (String × List α)) (numRows cs : Nat) :
    List (String × List α) × List Nat :=
  (fetchWindows numRows cs).foldl (fetchStep cols) ([], [])

/-- `len(df)` for a DataFrame built with `DataFrame.from_dict` from the
buffer: the common column length. -/
def dfHeight {α : Type} (buf : List (String × List α)) : Nat :=
  match buf with
  | [] => 0
  | p :: _ => p.2.length

/-- The DataFrame `read_table` returns for the full row range: the buffer
as the columns, indexed by `index_buffer[0:len(df)]`. -/
def readTableModel {α : Type} (cols : List (String × List α))
    (numRows cs : Nat) : List (String × List α) × List Nat :=
  let r := fetchAll cols numRows cs
  (r.1, r.2.take (dfHeight r.1))

/-! ## Concrete environments used to instantiate the push theorems -/

/-- Target resolver where Image 1 and Dataset 2 exist in different groups. -/
def findGroupTwo : String → Int → Option Int :=
  fun t i =>
    if t = "Image" && i = 1 then some 1
    else if t = "Dataset" && i = 2 then some 2
    else none

/-- Target resolver where Image 1 and Dataset 2 exist in the same group. -/
def findGroupSame : String → Int → Option Int :=
  fun t i =>
    if t = "Image" && i = 1 then some 5
    else if t = "Dataset" && i = 2 then some 5
    else none

/-- Push environment with group-mismatched targets. -/
def envMismatch : PushEnv :=
  { findGroup := findGroupTwo, saveAnnotOk := true, saveLinksOk := true,
    annotId := 99 }

/-- Push environment where the link batch save fails. -/
def envLinkFail : PushEnv :=
  { findGroup := findGroupSame, saveAnnotOk := true, saveLinksOk := false,
    annotId := 99 }

/-- Push environment where every remote call succeeds. -/
def envLinkOk : PushEnv :=
  { findGroup := findGroupSame, saveAnnotOk := true, saveLinksOk := true,
    annotId := 99 }

/-- A one-column, one-row integer DataFrame source. -/
def smallDf : TableSource :=
  TableSource.dataFrame [⟨"a", 'i', [Cell.missing]⟩]

/-! ## Theorems -/

/-- Any fuel at least the list length gives the same chunk split. -/
theorem chunksOfGo_fuel (cs : Nat) (hcs : cs ≠ 0) :
    ∀ fuel₁ fuel₂ (l : List Cell), l.length ≤ fuel₁ → l.length ≤ fuel₂ →
      chunksOfGo cs fuel₁ l = chunksOfGo cs fuel₂ l := by
  intro fuel₁
  induction fuel₁ with
  | zero =>
    intro fuel₂ l h1 _
    have hl : l = [] := List.eq_nil_of_length_eq_zero (Nat.le_zero.mp h1)
    subst hl
    cases fuel₂ with
    | zero => rfl
    | succ f => simp [chunksOfGo]
  | succ f ih =>
    intro fuel₂ l h1 h2
    cases l with
    | nil =>
      cases fuel₂ with
      | zero => simp [chunksOfGo]
      | succ g => simp [chunksOfGo]
    | cons c rest =>
      cases fuel₂ with
      | zero => simp at h2
      | succ g =>
        simp only [chunksOfGo]
        rw [if_neg (by simp), if_neg (by simp)]
        have hlen : ((c :: rest).drop cs).length = rest.length + 1 - cs := by
          simp
        have hd1 : ((c :: rest).drop cs).length ≤ f := by
          rw [hlen]
          simp only [List.length_cons] at h1
          omega
        have hd2 : ((c :: rest).drop cs).length ≤ g := by
          rw [hlen]
          simp only [List.length_cons] at h2
          omega
        rw [ih _ _ hd1 hd2]

/-- Unfolding lemma: `chunksOf` on a nonempty list with a positive chunk
size peels off the first `cs` cells. -/
theorem chunksOf_cons (cs : Nat) (cells : List Cell) (hcs : cs ≠ 0)
    (hne : cells ≠ []) :
    chunksOf cs cells = cells.take cs :: chunksOf cs (cells.drop cs) := by
  cases cells with
  | nil => exact absurd rfl hne
  | cons c rest =>
    simp only [chunksOf, if_neg hcs, List.length_cons]
    have hstep : chunksOfGo cs (rest.length + 1) (c :: rest)
        = (c :: rest).take cs :: chunksOfGo cs rest.length ((c :: rest).drop cs) := by
      simp [chunksOfGo]
    rw [hstep]
    congr 1
    exact chunksOfGo_fuel cs hcs rest.length (((c :: rest).drop cs).length) _
      (by simp; omega) (le_refl _)

/-- Any fuel at least `stop - s` gives the same index list. -/
theorem rangeStepGo_fuel (step : Nat) (hstep : step ≠ 0) :
    ∀ fuel₁ fuel₂ s stop, stop - s ≤ fuel₁ → stop - s ≤ fuel₂ →
      rangeStepGo step fuel₁ s stop = rangeStepGo step fuel₂ s stop := by
  intro fuel₁
  induction fuel₁ with
  | zero =>
    intro fuel₂ s stop h1 _
    cases fuel₂ with
    | zero => rfl
    | succ f =>
      simp only [rangeStepGo]
      rw [if_pos (by omega)]
  | succ f ih =>
    intro fuel₂ s stop h1 h2
    cases fuel₂ with
    | zero =>
      simp only [rangeStepGo]
      rw [if_pos (by omega)]
    | succ g =>
      simp only [rangeStepGo]
      by_cases hs : stop ≤ s
      · rw [if_pos hs, if_pos hs]
      · rw [if_neg hs, if_neg hs]
        have := ih g (s + step) stop (by omega) (by omega)
        rw [this]

/-- `rangeStep` is empty exactly on a degenerate range. -/
theorem rangeStep_nil (start stop step : Nat)
    (h : step = 0 ∨ stop ≤ start) : rangeStep start stop step = [] := by
  rcases h with h | h
  · simp [rangeStep, h]
  · simp only [rangeStep]
    by_cases hz : step = 0
    · simp [hz]
    · rw [if_neg hz]
      have : stop - start = 0 := by omega
      rw [this]
      rfl

/-- Unfolding lemma: a nondegenerate `rangeStep` starts at `start` and
continues from `start + step`. -/
theorem rangeStep_cons (start stop step : Nat) (hstep : step ≠ 0)
    (h : start < stop) :
    rangeStep start stop step = start :: rangeStep (start + step) stop step := by
  simp only [rangeStep, if_neg hstep]
  have hsub : stop - start = (stop - start - 1) + 1 := by omega
  rw [hsub]
  simp only [rangeStepGo]
  rw [if_neg (by omega)]
  congr 1
  exact rangeStepGo_fuel step hstep (stop - start - 1) (stop - (start + step))
    (start + step) stop (by omega) (le_refl _)


/-- Claim C7: for every `columnCount >= 1`, the effective chunk size
computed by `optimal_chunk_size` equals
`min(50000, max(1, 2000000 / columnCount))` under integer division, and the
reduction diagnostic is emitted exactly when `2000000 / columnCount`
exceeds 50000. -/
theorem claim7_optimal_chunk_size (columnCount : Nat) (h : 1 ≤ columnCount) :
    (optimalChunkSize columnCount).1
      = min 50000 (max 1 (2000000 / columnCount)) ∧
    ((optimalChunkSize columnCount).2 = true ↔
      50000 < 2000000 / columnCount) := by
  constructor
  · simp only [optimalChunkSize]
    omega
  · simp [optimalChunkSize]

/-- Witness for C7 at `columnCount = 13`, where `2000000 / 13 = 153846` is
clamped to the 50000 ceiling and the diagnostic fires. -/
theorem claim7_witness :
    (optimalChunkSize 13).1 = min 50000 (max 1 (2000000 / 13)) ∧
    ((optimalChunkSize 13).2 = true ↔ 50000 < 2000000 / 13) :=
  claim7_optimal_chunk_size 13 (by decide)

/-- Claim C2 counterexample: `file_id = 0` and `annotation_id = 1` are both
supplied, yet `_validate_requested_object` raises nothing: `0` is falsy, so
the `if file_id and annotation_id` guard passes, and the
`elif file_id is not None` branch selects the OriginalFile path with id 0.
The claim "supplying both file_id and annotation_id raises a configuration
error" is therefore false as stated. -/
theorem claim2_counterexample :
    validateRequestedObject (some (PyVal.int 0)) (some (PyVal.int 1))
      = Except.ok (0, ObjectKind.originalFile) := rfl

/-- Claim C2 (amended): supplying both ids with truthy values raises the
both-supplied error before any connection attempt (the error carries no
events); supplying neither raises the must-supply error before any
connection attempt; otherwise validation succeeds for integer ids and
selects OriginalFile whenever `file_id is not None` (even a falsy `0`) and
FileAnnotation when only `annotation_id is not None`. -/
theorem claim2_validate_requested_object (fileId annotId : Option PyVal) :
    (pyTruthy fileId = true → pyTruthy annotId = true →
      tableOpenCall fileId annotId = Except.error ValidateErr.bothSupplied) ∧
    (fileId = none → annotId = none →
      tableOpenCall fileId annotId = Except.error ValidateErr.neitherSupplied) ∧
    (∀ n : Int, fileId = some (PyVal.int n) →
      ¬(pyTruthy fileId = true ∧ pyTruthy annotId = true) →
      tableOpenCall fileId annotId
        = Except.ok ([CallEvent.connect, CallEvent.openTable], n,
                     ObjectKind.originalFile)) ∧
    (∀ n : Int, fileId = none → annotId = some (PyVal.int n) →
      tableOpenCall fileId annotId
        = Except.ok ([CallEvent.connect, CallEvent.openTable], n,
                     ObjectKind.fileAnnot)) := by
  refine ⟨?_, ?_, ?_, ?_⟩
  · intro h1 h2
    simp [tableOpenCall, validateRequestedObject, h1, h2]
  · intro h1 h2
    subst h1; subst h2
    simp [tableOpenCall, validateRequestedObject, pyTruthy]
  · intro n h1 h2
    subst h1
    have ht : ¬(pyTruthy (some (PyVal.int n)) = true ∧ pyTruthy annotId = true) := h2
    simp only [tableOpenCall, validateRequestedObject]
    rw [if_neg]
    · rfl
    · intro hc
      exact ht (by simpa using hc)
  · intro n h1 h2
    subst h1; subst h2
    simp [tableOpenCall, validateRequestedObject, pyTruthy,
          coerceObjectId]

/-- Witness for C2 (amended) at truthy ids 5 and 7 (both-supplied error) and
at `annotation_id = 7` alone (FileAnnotation selection). -/
theorem claim2_witness :
    tableOpenCall (some (PyVal.int 5)) (some (PyVal.int 7))
      = Except.error ValidateErr.bothSupplied ∧
    tableOpenCall none (some (PyVal.int 7))
      = Except.ok ([CallEvent.connect, CallEvent.openTable], 7,
                   ObjectKind.fileAnnot) :=
  ⟨(claim2_validate_requested_object (some (PyVal.int 5))
      (some (PyVal.int 7))).1 (by decide) (by decide),
   (claim2_validate_requested_object none
      (some (PyVal.int 7))).2.2.2 7 rfl rfl⟩

/-- Claim C8: for every column whose name is one of the recognized
relationship names `{roi, image, dataset, well, field, wellsample, plate}`
and whose dtype kind is integer (`'i'`), both the DataFrame inference path
and the CSV inference path map that column to the same entity-reference
column class, never to plain Int64 (`LongColumn`). -/
theorem claim8_special_names (name : String) (cells : List Cell)
    (scanRows cs : Nat)
    (h : name ∈ ["roi", "image", "dataset", "well", "field",
                 "wellsample", "plate"]) :
    ∃ c : GridColumnType,
      specialNames name = some c ∧
      c ≠ GridColumnType.long ∧
      generateOmeroColumns [⟨name, 'i', cells⟩]
        = Except.ok ([⟨name, c, 0⟩], []) ∧
      csvColumns [⟨name, 'i', cells⟩] scanRows cs
        = Except.ok ([⟨name, c, 0⟩], []) := by
  simp only [List.mem_cons, List.not_mem_nil, or_false] at h
  rcases h with rfl | rfl | rfl | rfl | rfl | rfl | rfl
  · exact ⟨GridColumnType.roi, rfl, by decide, rfl, rfl⟩
  · exact ⟨GridColumnType.image, rfl, by decide, rfl, rfl⟩
  · exact ⟨GridColumnType.dataset, rfl, by decide, rfl, rfl⟩
  · exact ⟨GridColumnType.well, rfl, by decide, rfl, rfl⟩
  · exact ⟨GridColumnType.image, rfl, by decide, rfl, rfl⟩
  · exact ⟨GridColumnType.image, rfl, by decide, rfl, rfl⟩
  · exact ⟨GridColumnType.plate, rfl, by decide, rfl, rfl⟩

/-- Witness for C8 at the column name `roi` with an integer dtype. -/
theorem claim8_witness :
    ∃ c : GridColumnType,
      specialNames "roi" = some c ∧
      c ≠ GridColumnType.long ∧
      generateOmeroColumns [⟨"roi", 'i', [Cell.missing]⟩]
        = Except.ok ([⟨"roi", c, 0⟩], []) ∧
      csvColumns [⟨"roi", 'i', [Cell.missing]⟩] 1000 1000
        = Except.ok ([⟨"roi", c, 0⟩], []) :=
  claim8_special_names "roi" [Cell.missing] 1000 1000 (by decide)

/-- Claim C5: in the registration handshake, a non-2xx token `GET` raises
and the registration `POST` is never issued (the trace stops at
`getToken`); a 2xx `POST` yields the id parsed from the body at
`data.file_annotation`; a non-2xx `POST` always raises, with the
machine-readable message extracted from a JSON body when present
(the `message` field, else the whole body) and the generic status-derived
fallback otherwise. -/
theorem claim5_register_table (tokenResp postResp : HttpResponse) :
    (¬(200 ≤ tokenResp.status ∧ tokenResp.status < 300) →
      (registerTable tokenResp postResp).1 = [HsEvent.getToken] ∧
      ∃ e, (registerTable tokenResp postResp).2 = Except.error e) ∧
    (∀ csrf d ann,
      200 ≤ tokenResp.status → tokenResp.status < 300 →
      tokenResp.body = some (JVal.jobj [("data", csrf)]) →
      200 ≤ postResp.status → postResp.status < 300 →
      postResp.body = some (JVal.jobj [("data", d)]) →
      jget d "file_annotation" = some ann →
      registerTable tokenResp postResp
        = ([HsEvent.getToken, HsEvent.postRegister], Except.ok ann)) ∧
    (∀ csrf,
      200 ≤ tokenResp.status → tokenResp.status < 300 →
      tokenResp.body = some (JVal.jobj [("data", csrf)]) →
      ¬(200 ≤ postResp.status ∧ postResp.status < 300) →
      (∃ e, (registerTable tokenResp postResp).2 = Except.error e) ∧
      (∀ j, postResp.jsonContentType = true → postResp.body = some j →
        (registerTable tokenResp postResp).2
          = Except.error (RemoteErr.rejected postResp.status
              (some (match jget j "message" with
                     | some m => m
                     | none => j)))) ∧
      (postResp.jsonContentType = false →
        (registerTable tokenResp postResp).2
          = Except.error (RemoteErr.rejected postResp.status none))) := by
  refine ⟨?_, ?_, ?_⟩
  · intro hbad
    have hcheck : ∃ e, checkResponse tokenResp = Except.error e := by
      simp only [checkResponse, if_neg hbad]
      by_cases hjson : tokenResp.jsonContentType
      · rw [if_pos hjson]
        cases hb : tokenResp.body with
        | none => exact ⟨_, rfl⟩
        | some j => exact ⟨_, rfl⟩
      · rw [if_neg hjson]
        exact ⟨_, rfl⟩
    obtain ⟨e, he⟩ := hcheck
    simp [registerTable, he]
  · intro csrf d ann h1 h2 hb h3 h4 hpb hann
    have hct : checkResponse tokenResp = Except.ok (JVal.jobj [("data", csrf)]) := by
      simp [checkResponse, if_pos (And.intro h1 h2), hb]
    have hcp : checkResponse postResp = Except.ok (JVal.jobj [("data", d)]) := by
      simp [checkResponse, if_pos (And.intro h3 h4), hpb]
    have hdata : jget (JVal.jobj [("data", d)]) "data" = some d := by
      simp [jget]
    have hcsrf : jget (JVal.jobj [("data", csrf)]) "data" = some csrf := by
      simp [jget]
    simp [registerTable, hct, hcp, hdata, hcsrf, hann]
  · intro csrf h1 h2 hb hbad
    have hct : checkResponse tokenResp = Except.ok (JVal.jobj [("data", csrf)]) := by
      simp [checkResponse, if_pos (And.intro h1 h2), hb]
    refine ⟨?_, ?_, ?_⟩
    · have hcheck : ∃ e, checkResponse postResp = Except.error e := by
        simp only [checkResponse, if_neg hbad]
        by_cases hjson : postResp.jsonContentType
        · rw [if_pos hjson]
          cases hpb : postResp.body with
          | none => exact ⟨_, rfl⟩
          | some j => exact ⟨_, rfl⟩
        · rw [if_neg hjson]
          exact ⟨_, rfl⟩
      obtain ⟨e, he⟩ := hcheck
      exact ⟨e, by simp [registerTable, hct, he, jget]⟩
    · intro j hjson hpb
      have hcp : checkResponse postResp
          = Except.error (RemoteErr.rejected postResp.status
              (some (match jget j "message" with
                     | some m => m
                     | none => j))) := by
        simp [checkResponse, if_neg hbad, hjson, hpb]
      simp [registerTable, hct, hcp, jget]
    · intro hjson
      have hcp : checkResponse postResp
          = Except.error (RemoteErr.rejected postResp.status none) := by
        simp [checkResponse, if_neg hbad, hjson]
      simp [registerTable, hct, hcp, jget]

/-- Witness for C5: a 403 token response (JSON body present) aborts the
handshake with only the `GET` issued, matching the end-to-end scenario of
the specification. -/
theorem claim5_witness :
    (registerTable
        ⟨403, true, some (JVal.jobj [("message", JVal.jstr "forbidden")])⟩
        ⟨200, true, some (JVal.jobj [("data", JVal.jobj
          [("file_annotation", JVal.jnum 12)])])⟩).1
      = [HsEvent.getToken] ∧
    ∃ e, (registerTable
        ⟨403, true, some (JVal.jobj [("message", JVal.jstr "forbidden")])⟩
        ⟨200, true, some (JVal.jobj [("data", JVal.jobj
          [("file_annotation", JVal.jnum 12)])])⟩).2
      = Except.error e :=
  (claim5_register_table _ _).1 (by decide)

/-- Claim C9: on a disconnected `OMEROConnection` with sufficient details,
session-key join and username/password creation are mutually exclusive —
the join path is taken whenever a session key is present, regardless of
username/password — and a failure of the chosen establishment call resets
the state to disconnected (`client` and `session` both `None`, `connected`
false), reporting the failure by returning `False`. -/
theorem claim9_connect (st : ConnState) (interactive keepAliveFlag : Bool)
    (joinOk createOk : Bool)
    (hclient : st.client = false)
    (hdetails : needConnectionDetails st = false) :
    (∀ k, st.sessionKey = some k →
      ConnEvent.createSession
          ∉ (omeroConnect st interactive keepAliveFlag joinOk createOk).2.2 ∧
      (joinOk = false →
        omeroConnect st interactive keepAliveFlag joinOk createOk
          = ({ st with client := false, session := false },
             ConnectOutcome.returnedFalse,
             [ConnEvent.newClient, ConnEvent.joinSession]))) ∧
    (st.sessionKey = none → ∀ u, st.username = some u →
      ConnEvent.joinSession
          ∉ (omeroConnect st interactive keepAliveFlag joinOk createOk).2.2 ∧
      (createOk = false →
        omeroConnect st interactive keepAliveFlag joinOk createOk
          = ({ st with client := false, session := false },
             ConnectOutcome.returnedFalse,
             [ConnEvent.newClient, ConnEvent.createSession]))) ∧
    ¬(ConnEvent.joinSession
        ∈ (omeroConnect st interactive keepAliveFlag joinOk createOk).2.2 ∧
      ConnEvent.createSession
        ∈ (omeroConnect st interactive keepAliveFlag joinOk createOk).2.2) ∧
    ((omeroConnect st interactive keepAliveFlag joinOk createOk).1.client = false →
      isConnected (omeroConnect st interactive keepAliveFlag joinOk createOk).1
        = false) := by
  have hconn : isConnected st = false := hclient
  refine ⟨?_, ?_, ?_, ?_⟩
  · intro k hk
    constructor
    · simp only [omeroConnect, isConnected, hclient, hdetails, hk]
      cases joinOk <;> cases keepAliveFlag <;> simp
    · intro hj
      subst hj
      simp [omeroConnect, isConnected, hclient, hdetails, hk]
  · intro hk u hu
    constructor
    · simp only [omeroConnect, isConnected, hclient, hdetails, hk, hu]
      cases createOk <;> cases keepAliveFlag <;> simp
    · intro hc
      subst hc
      simp [omeroConnect, isConnected, hclient, hdetails, hk, hu]
  · simp only [omeroConnect, isConnected, hclient, hdetails]
    cases hk : st.sessionKey with
    | some k =>
      cases joinOk <;> cases keepAliveFlag <;> simp
    | none =>
      cases hu : st.username with
      | some u => cases createOk <;> cases keepAliveFlag <;> simp
      | none => simp
  · intro h
    simp [isConnected, h]

/-- Witness for C9: a state with both a session key and a username takes
the join path, and a failed join resets client and session. -/
theorem claim9_witness :
    ConnEvent.createSession
        ∉ (omeroConnect
            ⟨false, false, some "srv", some "user", some "pw", some "key"⟩
            false true false true).2.2 ∧
    omeroConnect ⟨false, false, some "srv", some "user", some "pw", some "key"⟩
        false true false true
      = (⟨false, false, some "srv", some "user", some "pw", some "key"⟩,
         ConnectOutcome.returnedFalse,
         [ConnEvent.newClient, ConnEvent.joinSession]) :=
  ((claim9_connect
      ⟨false, false, some "srv", some "user", some "pw", some "key"⟩
      false true false true rfl rfl).1 "key" rfl).imp id (fun h => h rfl)

/-- `strLenMax` over a concatenation combines the two maxima. -/
theorem strLenMax_append (l1 l2 : List Cell) :
    strLenMax (l1 ++ l2)
      = match strLenMax l1 with
        | none => strLenMax l2
        | some m => some (max m ((strLenMax l2).getD 0)) := by
  induction l1 with
  | nil => simp [strLenMax]
  | cons c rest ih =>
    cases c with
    | str s =>
      have hL : strLenMax (Cell.str s :: (rest ++ l2))
          = some (max s.length ((strLenMax (rest ++ l2)).getD 0)) := rfl
      rw [List.cons_append, hL, ih]
      cases hr : strLenMax rest with
      | none =>
        cases h2 : strLenMax l2 with
        | none => simp [strLenMax, hr, h2]
        | some k => simp [strLenMax, hr, h2]
      | some m =>
        cases h2 : strLenMax l2 with
        | none => simp [strLenMax, hr, h2]
        | some k => simp [strLenMax, hr, h2, Nat.max_assoc]
    | missing =>
      rw [List.cons_append]
      have hL : strLenMax (Cell.missing :: (rest ++ l2))
          = strLenMax (rest ++ l2) := rfl
      have hR : strLenMax (Cell.missing :: rest) = strLenMax rest := rfl
      rw [hL, ih, hR]

/-- `presentMax` over a concatenation is the max of the two parts. -/
theorem presentMax_append (l1 l2 : List Cell) :
    presentMax (l1 ++ l2) = max (presentMax l1) (presentMax l2) := by
  simp only [presentMax, strLenMax_append]
  cases h1 : strLenMax l1 with
  | none => simp
  | some m =>
    cases h2 : strLenMax l2 with
    | none => simp
    | some k => simp

/-- The per-chunk width is the present maximum, or the floor 1 for an
all-missing chunk. -/
theorem chunkWidth_eq (l : List Cell) :
    chunkWidth l = if hasPresent l = true then presentMax l else 1 := by
  simp only [chunkWidth, hasPresent, presentMax]
  cases h : strLenMax l with
  | none => simp
  | some m => simp

/-- `hasPresent` forces `presentMax` to vanish when false. -/
theorem presentMax_of_not_hasPresent (l : List Cell)
    (h : hasPresent l = false) : presentMax l = 0 := by
  have hn : strLenMax l = none := by
    cases hx : strLenMax l with
    | none => rfl
    | some m =>
      rw [hasPresent, hx] at h
      simp at h
  simp [presentMax, hn]

/-- Folding the pass-2 width update over the chunk split accumulates the
source-wide present maximum plus the all-missing floor. -/
theorem foldChunksGo (cs : Nat) (hcs : cs ≠ 0) :
    ∀ (fuel : Nat) (cells : List Cell) (a : Nat), cells.length ≤ fuel →
      (chunksOfGo cs fuel cells).foldl
          (fun size chunk => max (chunkWidth chunk) size) a
        = max a (max (presentMax cells)
            (if (chunksOfGo cs fuel cells).any (fun c => !(hasPresent c))
             then 1 else 0)) := by
  intro fuel
  induction fuel with
  | zero =>
    intro cells a h1
    have hl : cells = [] := List.eq_nil_of_length_eq_zero (Nat.le_zero.mp h1)
    subst hl
    simp [chunksOfGo, presentMax, strLenMax]
  | succ f ih =>
    intro cells a h1
    cases cells with
    | nil => simp [chunksOfGo, presentMax, strLenMax]
    | cons c rest =>
      simp only [chunksOfGo]
      simp only [if_neg (List.cons_ne_nil c rest)]
      simp only [List.foldl_cons, List.any_cons]
      have hdlen : ((c :: rest).drop cs).length ≤ f := by
        simp only [List.length_drop, List.length_cons]
        simp only [List.length_cons] at h1
        omega
      rw [ih ((c :: rest).drop cs) (max (chunkWidth ((c :: rest).take cs)) a) hdlen]
      have hsplit : presentMax (c :: rest)
          = max (presentMax ((c :: rest).take cs))
                (presentMax ((c :: rest).drop cs)) := by
        conv_lhs => rw [← List.take_append_drop cs (c :: rest)]
        exact presentMax_append _ _
      rw [hsplit, chunkWidth_eq]
      by_cases ha : ((chunksOfGo cs f ((c :: rest).drop cs)).any
          (fun c => !(hasPresent c))) = true
      · by_cases hp : hasPresent ((c :: rest).take cs) = true
        · rw [if_pos hp]
          have hcond : ((!hasPresent ((c :: rest).take cs))
              || (chunksOfGo cs f ((c :: rest).drop cs)).any
                  (fun c => !(hasPresent c))) = true := by
            simp [ha]
          simp only [if_pos ha, if_pos hcond]
          omega
        · have hp' : hasPresent ((c :: rest).take cs) = false := by
            simpa using hp
          rw [if_neg hp]
          have hcond : ((!hasPresent ((c :: rest).take cs))
              || (chunksOfGo cs f ((c :: rest).drop cs)).any
                  (fun c => !(hasPresent c))) = true := by
            simp [hp']
          simp only [if_pos ha, if_pos hcond]
          rw [presentMax_of_not_hasPresent _ hp']
          omega
      · by_cases hp : hasPresent ((c :: rest).take cs) = true
        · rw [if_pos hp]
          have hcond : ¬(((!hasPresent ((c :: rest).take cs))
              || (chunksOfGo cs f ((c :: rest).drop cs)).any
                  (fun c => !(hasPresent c))) = true) := by
            simp [hp, ha]
          simp only [if_neg ha, if_neg hcond]
          omega
        · have hp' : hasPresent ((c :: rest).take cs) = false := by
            simpa using hp
          rw [if_neg hp]
          have hcond : ((!hasPresent ((c :: rest).take cs))
              || (chunksOfGo cs f ((c :: rest).drop cs)).any
                  (fun c => !(hasPresent c))) = true := by
            simp [hp']
          simp only [if_neg ha, if_pos hcond]
          rw [presentMax_of_not_hasPresent _ hp']
          omega

/-- Claim C4 counterexample: a DataFrame text column whose cells are all
present empty strings is assigned width 0 by `generate_omero_columns`
(`str.len().max()` is `0.0`, not `NaN`, so the floor of 1 never applies),
refuting "the inferred width is never 0". -/
theorem claim4_counterexample :
    generateOmeroColumns [⟨"vals", 'O', [Cell.str "", Cell.str ""]⟩]
      = Except.ok ([⟨"vals", GridColumnType.text, 0⟩], ["vals"]) := rfl

/-- Claim C4 (amended): the CSV pass-2 width is exactly the maximum
present-string length over the whole source, raised to the floor 1 when the
initial scan window or any full-file chunk is entirely missing; the
DataFrame path is the single-chunk instance of the same rule. The width is
therefore never 0 unless some present string itself has length 0 (and a
column with no populated values still gets width 1), and lengths
`[3, all-missing, 7]` yield 7. -/
theorem claim4_text_width (cells : List Cell) (scanRows cs : Nat)
    (hcs : 1 ≤ cs) :
    csvTextWidth cells scanRows cs
      = max (presentMax cells)
          (if hasPresent (cells.take scanRows) = false
              ∨ (chunksOf cs cells).any (fun c => !(hasPresent c)) = true
           then 1 else 0) ∧
    dfTextWidth cells
      = (if hasPresent cells = true then presentMax cells else 1) := by
  constructor
  · have hcs0 : cs ≠ 0 := by omega
    simp only [csvTextWidth, chunksOf, if_neg hcs0]
    rw [foldChunksGo cs hcs0 cells.length cells _ (le_refl _)]
    rw [chunkWidth_eq]
    have hple : presentMax (cells.take scanRows) ≤ presentMax cells := by
      conv_rhs => rw [← List.take_append_drop scanRows cells]
      rw [presentMax_append]
      omega
    by_cases hp : hasPresent (cells.take scanRows) = true
    · rw [if_pos hp]
      have hnot : ¬(hasPresent (cells.take scanRows) = false
          ∨ (chunksOfGo cs cells.length cells).any (fun c => !(hasPresent c))
              = true)
          ∨ (hasPresent (cells.take scanRows) = false
          ∨ (chunksOfGo cs cells.length cells).any (fun c => !(hasPresent c))
              = true) := by
        tauto
      by_cases hany : (chunksOfGo cs cells.length cells).any
          (fun c => !(hasPresent c)) = true
      · rw [if_pos (Or.inr hany), if_pos hany]
        omega
      · rw [if_neg (not_or.mpr ⟨by simp [hp], hany⟩), if_neg hany]
        omega
    · have hp' : hasPresent (cells.take scanRows) = false := by
        simpa using hp
      rw [if_neg hp, if_pos (Or.inl hp')]
      split <;> omega
  · exact chunkWidth_eq cells

/-- Witness for C4 (amended) at a column whose three one-row chunks have
maxima 3, all-missing, 7 with chunk size 1: the assigned width is 7, and
the formula of the theorem evaluates accordingly. -/
theorem claim4_witness :
    (csvTextWidth [Cell.str "abc", Cell.missing, Cell.str "abcdefg"] 1 1
      = max (presentMax [Cell.str "abc", Cell.missing, Cell.str "abcdefg"])
          (if hasPresent ([Cell.str "abc", Cell.missing,
                           Cell.str "abcdefg"].take 1) = false
              ∨ (chunksOf 1 [Cell.str "abc", Cell.missing,
                             Cell.str "abcdefg"]).any
                  (fun c => !(hasPresent c)) = true
           then 1 else 0) ∧
     dfTextWidth [Cell.str "abc", Cell.missing, Cell.str "abcdefg"]
      = (if hasPresent [Cell.str "abc", Cell.missing, Cell.str "abcdefg"]
            = true
         then presentMax [Cell.str "abc", Cell.missing, Cell.str "abcdefg"]
         else 1)) ∧
    csvTextWidth [Cell.str "abc", Cell.missing, Cell.str "abcdefg"] 1 1 = 7 :=
  ⟨claim4_text_width [Cell.str "abc", Cell.missing, Cell.str "abcdefg"] 1 1
     (by decide), rfl⟩

/-- Every event the pre-flight validation loop issues is a target lookup. -/
theorem validateLinks_events (find : String → Int → Option Int) :
    ∀ (ls : List (String × Int)) (wg : Option Int),
      ∀ ev ∈ (validateLinks find ls wg).1, ∃ t i, ev = PushEvent.findTarget t i := by
  intro ls
  induction ls with
  | nil =>
    intro wg ev h
    simp [validateLinks] at h
  | cons p rest ih =>
    obtain ⟨t, i⟩ := p
    intro wg ev h
    simp only [validateLinks] at h
    by_cases hc : (!(objectTypes.contains t)) = true
    · rw [if_pos hc] at h
      simp at h
    · rw [if_neg hc] at h
      cases hf : find t i with
      | none =>
        simp only [hf] at h
        simp at h
        exact ⟨t, i, h⟩
      | some g =>
        simp only [hf] at h
        cases wg with
        | none =>
          simp at h
          rcases h with rfl | h
          · exact ⟨t, i, rfl⟩
          · exact ih (some g) ev h
        | some w =>
          by_cases hw : w ≠ g
          · simp [hw] at h
            exact ⟨t, i, h⟩
          · push_neg at hw
            subst hw
            simp at h
            rcases h with rfl | h
            · exact ⟨t, i, rfl⟩
            · exact ih (some w) ev h

/-- If every target resolves but some target's group differs from the
working group, the validation loop fails with the group-mismatch error. -/
theorem validateLinks_mismatch (find : String → Int → Option Int) :
    ∀ (ls : List (String × Int)) (w : Int),
      (∀ p ∈ ls, objectTypes.contains p.1 = true ∧ (find p.1 p.2).isSome = true) →
      (∃ p ∈ ls, find p.1 p.2 ≠ some w) →
      (validateLinks find ls (some w)).2 = Except.error UploadErr.groupMismatch := by
  intro ls
  induction ls with
  | nil =>
    intro w _ hex
    simp at hex
  | cons p rest ih =>
    obtain ⟨t, i⟩ := p
    intro w hall hex
    have hsup : objectTypes.contains t = true := (hall (t, i) (by simp)).1
    have hsome : (find t i).isSome = true := (hall (t, i) (by simp)).2
    obtain ⟨g, hg⟩ := Option.isSome_iff_exists.mp hsome
    have hmem : t ∈ objectTypes := by simpa using hsup
    have hnot : ¬((!(objectTypes.contains t)) = true) := by simp [hmem]
    simp only [validateLinks, if_neg hnot, hg]
    by_cases hw : w ≠ g
    · rw [if_pos hw]
    · rw [if_neg hw]
      push_neg at hw
      subst hw
      apply ih w (fun p hp => hall p (List.mem_cons_of_mem _ hp))
      rcases hex with ⟨p, hp, hne⟩
      rcases List.mem_cons.mp hp with rfl | hp
      · exact absurd hg hne
      · exact ⟨p, hp, hne⟩

/-- Starting with no working group, resolvable targets spanning two
different groups make validation fail with the group-mismatch error. -/
theorem validateLinks_none_mismatch (find : String → Int → Option Int)
    (ls : List (String × Int))
    (hall : ∀ p ∈ ls, objectTypes.contains p.1 = true ∧ (find p.1 p.2).isSome = true)
    (hmm : ∃ p ∈ ls, ∃ q ∈ ls, find p.1 p.2 ≠ find q.1 q.2) :
    (validateLinks find ls none).2 = Except.error UploadErr.groupMismatch := by
  cases ls with
  | nil => simp at hmm
  | cons p rest =>
    obtain ⟨t, i⟩ := p
    have hsup : objectTypes.contains t = true := (hall (t, i) (by simp)).1
    have hsome : (find t i).isSome = true := (hall (t, i) (by simp)).2
    obtain ⟨g, hg⟩ := Option.isSome_iff_exists.mp hsome
    have hmem : t ∈ objectTypes := by simpa using hsup
    have hnot : ¬((!(objectTypes.contains t)) = true) := by simp [hmem]
    simp only [validateLinks, if_neg hnot, hg]
    apply validateLinks_mismatch find rest g
      (fun p hp => hall p (List.mem_cons_of_mem _ hp))
    by_contra hno
    push_neg at hno
    have hallg : ∀ x ∈ (t, i) :: rest, find x.1 x.2 = some g := by
      intro x hx
      rcases List.mem_cons.mp hx with rfl | hx
      · exact hg
      · exact hno x hx
    obtain ⟨a, ha, b, hb, hne⟩ := hmm
    exact hne (by rw [hallg a ha, hallg b hb])

/-- Claim C3: a push whose (normalized, resolvable) link targets span two
different consistency groups fails with the group-mismatch error, and the
event trace contains only target lookups — no schema inference, no source
read, no remote table creation. -/
theorem claim3_group_mismatch (env : PushEnv) (source : TableSource)
    (links : List (String × Int)) (chunkSize : Option Nat)
    (hall : ∀ p ∈ links.map normalizeLink,
      objectTypes.contains p.1 = true ∧ (env.findGroup p.1 p.2).isSome = true)
    (hmm : ∃ p ∈ links.map normalizeLink, ∃ q ∈ links.map normalizeLink,
      env.findGroup p.1 p.2 ≠ env.findGroup q.1 q.2) :
    (createTable env source links chunkSize).2
      = Except.error UploadErr.groupMismatch ∧
    ∀ ev ∈ (createTable env source links chunkSize).1,
      ∃ t i, ev = PushEvent.findTarget t i := by
  have hres := validateLinks_none_mismatch env.findGroup
    (links.map normalizeLink) hall hmm
  constructor
  · simp only [createTable, hres]
  · intro ev hev
    simp only [createTable, hres] at hev
    exact validateLinks_events env.findGroup _ none ev hev

/-- Witness for C3: linking to Image 1 (group 1) and Dataset 2 (group 2)
with lower-case input type names fails with the group mismatch before any
source read. -/
theorem claim3_witness :
    (createTable envMismatch smallDf [("image", 1), ("dataset", 2)]
        (some 10)).2
      = Except.error UploadErr.groupMismatch ∧
    ∀ ev ∈ (createTable envMismatch smallDf [("image", 1), ("dataset", 2)]
        (some 10)).1,
      ∃ t i, ev = PushEvent.findTarget t i :=
  claim3_group_mismatch envMismatch smallDf [("image", 1), ("dataset", 2)]
    (some 10) (by decide) (by decide)

/-- Claim C6 counterexample: with two same-group targets, a successful
transfer and annotation save, and a failing batch link save, `create_table`
raises (the error propagates out of the `try` into the caller, the
`finally` only closing the table) instead of logging a warning and
returning the annotation id. There is no second best-effort link batch:
all targets are linked by one `saveArray` call. -/
theorem claim6_counterexample :
    (createTable envLinkFail smallDf [("Image", 1), ("Dataset", 2)]
        (some 10)).2
      = Except.error UploadErr.linkSaveFailed := rfl

/-- Claim C6 (amended): after successful validation, inference and
annotation save, all targets are linked in one batch; if that batch save
fails the failure propagates as an error (no annotation id is returned),
though the table is still closed; if it succeeds the annotation id is
returned. -/
theorem claim6_single_link_batch (env : PushEnv) (source : TableSource)
    (links : List (String × Int)) (chunkSize : Option Nat)
    (hv : ∃ wg, (validateLinks env.findGroup (links.map normalizeLink) none).2
        = Except.ok wg)
    (hinf : ∃ res, inferSource source chunkSize = Except.ok res)
    (hann : env.saveAnnotOk = true) :
    (env.saveLinksOk = false →
      (createTable env source links chunkSize).2
          = Except.error UploadErr.linkSaveFailed ∧
      PushEvent.saveLinks ∈ (createTable env source links chunkSize).1 ∧
      PushEvent.closeTable ∈ (createTable env source links chunkSize).1) ∧
    (env.saveLinksOk = true →
      (createTable env source links chunkSize).2 = Except.ok env.annotId) := by
  obtain ⟨wg, hwg⟩ := hv
  obtain ⟨⟨cols, strs, totalRows, cs⟩, hres⟩ := hinf
  constructor
  · intro hfail
    simp only [createTable, hwg, hres, hann, hfail]
    refine ⟨by simp, by simp, by simp⟩
  · intro hok
    simp [createTable, hwg, hres, hann, hok]

/-- Witness for C6 (amended): the concrete failing-link push errors with
the link events present, and the all-success push returns annotation 99. -/
theorem claim6_witness :
    ((createTable envLinkFail smallDf [("Image", 1), ("Dataset", 2)]
        (some 10)).2
      = Except.error UploadErr.linkSaveFailed ∧
      PushEvent.saveLinks ∈ (createTable envLinkFail smallDf
        [("Image", 1), ("Dataset", 2)] (some 10)).1 ∧
      PushEvent.closeTable ∈ (createTable envLinkFail smallDf
        [("Image", 1), ("Dataset", 2)] (some 10)).1) ∧
    (createTable envLinkOk smallDf [("Image", 1), ("Dataset", 2)]
        (some 10)).2 = Except.ok 99 :=
  ⟨(claim6_single_link_batch envLinkFail smallDf
      [("Image", 1), ("Dataset", 2)] (some 10)
      ⟨some 5, rfl⟩ ⟨_, rfl⟩ rfl).1 rfl,
   (claim6_single_link_batch envLinkOk smallDf
      [("Image", 1), ("Dataset", 2)] (some 10)
      ⟨some 5, rfl⟩ ⟨_, rfl⟩ rfl).2 rfl⟩

/-- `seek` always clamps the offset back into `[0, size]`, for every whence
mode and every integer offset. -/
theorem seekTo_inv (r : FileReader) (off : Int) (w : Whence) :
    readerInv (seekTo r off w) := by
  cases w <;>
    simp only [seekTo, readerInv, fsize] <;>
    split_ifs <;>
    constructor <;>
    omega

/-- A well-formed `read` preserves the offset invariant. -/
theorem readBytes_inv (r : FileReader) (sz : Int) (hvalid : -1 ≤ sz)
    (hr : readerInv r) : readerInv (readBytes r sz).1 := by
  obtain ⟨h0, h1⟩ := hr
  simp only [readerInv, fsize] at h1 ⊢
  simp only [readBytes, fsize]
  split_ifs <;> (try simp) <;> omega

/-- One valid operation preserves the offset invariant. -/
theorem applyOp_inv (r : FileReader) (op : FileOp) (hop : opValid op)
    (hr : readerInv r) : readerInv (applyOp r op) := by
  cases op with
  | read sz => exact readBytes_inv r sz hop hr
  | seek off w => exact seekTo_inv r off w

/-- Claim C10: starting from a fresh reader, every sequence of seeks (any
whence, any integer offset) and well-formed reads keeps
`0 <= offset <= size`; and at any state satisfying the invariant, `read(n)`
for `n >= 0` returns exactly `min(n, size - offset)` bytes (in particular
at most that many), advances the offset by exactly the number of bytes
returned, and returns the empty byte string once the offset has reached the
file size. -/
theorem claim10_reader (file : List Nat) (ops : List FileOp)
    (hops : ∀ op ∈ ops, opValid op) :
    readerInv (applyOps (initReader file) ops) ∧
    (∀ r : FileReader, readerInv r → ∀ sz : Int, 0 ≤ sz →
      ((readBytes r sz).2.length : Int) = min sz ((fsize r : Int) - r.offset) ∧
      (readBytes r sz).1.offset = r.offset + (readBytes r sz).2.length ∧
      (r.offset = (fsize r : Int) → (readBytes r sz).2 = [])) := by
  constructor
  · have haux : ∀ (l : List FileOp) (r : FileReader),
        (∀ op ∈ l, opValid op) → readerInv r →
        readerInv (List.foldl applyOp r l) := by
      intro l
      induction l with
      | nil => intro r _ hr; exact hr
      | cons op rest ih =>
        intro r hl hr
        exact ih _ (fun x hx => hl x (List.mem_cons_of_mem _ hx))
          (applyOp_inv r op (hl op (List.mem_cons_self _ _)) hr)
    exact haux ops (initReader file) hops ⟨le_refl 0, by simp [initReader, fsize]⟩
  · intro r hr sz hsz
    obtain ⟨h0, h1⟩ := hr
    simp only [fsize] at h1 ⊢
    have hsz1 : ¬(sz = -1) := by omega
    simp only [readBytes, fsize, if_neg hsz1]
    split_ifs with hA
    · refine ⟨by simp; omega, by simp, fun _ => rfl⟩
    · push_neg at hA
      obtain ⟨hA1, hA2⟩ := hA
      have hlen : ((r.file.drop r.offset.toNat).take
          (min sz ((r.file.length : Int) - r.offset)).toNat).length
          = (min sz ((r.file.length : Int) - r.offset)).toNat := by
        rw [List.length_take, List.length_drop]
        omega
      refine ⟨?_, ?_, ?_⟩
      · simp only [hlen]
        omega
      · simp [hlen]
        omega
      · intro hoff
        exact absurd hoff (by omega)

/-- Witness for C10: a concrete sequence of seeks and reads on a 5-byte
file keeps the invariant, and a mid-file read returns the exact clamped
count. -/
theorem claim10_witness :
    readerInv (applyOps (initReader [10, 20, 30, 40, 50])
      [FileOp.seek 3 Whence.seekSet, FileOp.read 4,
       FileOp.seek 2 Whence.seekEnd, FileOp.read (-1),
       FileOp.seek 7 Whence.seekCur]) ∧
    ((readBytes ⟨[10, 20, 30, 40, 50], 3⟩ 4).2.length : Int)
        = min 4 ((fsize ⟨[10, 20, 30, 40, 50], 3⟩ : Int) - 3) ∧
    (readBytes ⟨[10, 20, 30, 40, 50], 3⟩ 4).1.offset
        = 3 + (readBytes ⟨[10, 20, 30, 40, 50], 3⟩ 4).2.length ∧
    ((3 : Int) = (fsize ⟨[10, 20, 30, 40, 50], 3⟩ : Int) →
      (readBytes ⟨[10, 20, 30, 40, 50], 3⟩ 4).2 = []) :=
  ⟨(claim10_reader [10, 20, 30, 40, 50] _ (by decide)).1,
   (claim10_reader [10, 20, 30, 40, 50] [] (by decide)).2
     ⟨[10, 20, 30, 40, 50], 3⟩ (by constructor <;> decide) 4 (by decide)⟩

/-- `data_buffer[name] += vs` inserts a fresh key at the end. -/
theorem bufAdd_fresh {α : Type} (buf : List (String × List α)) (name : String)
    (vs : List α) (h : name ∉ buf.map Prod.fst) :
    bufAdd buf name vs = buf ++ [(name, vs)] := by
  induction buf with
  | nil => rfl
  | cons q rest ih =>
    obtain ⟨n, u⟩ := q
    simp only [List.map_cons, List.mem_cons] at h
    push_neg at h
    simp only [bufAdd, if_neg (Ne.symm h.1), List.cons_append]
    rw [ih h.2]

/-- `data_buffer[name] += vs` appends in place to an existing key. -/
theorem bufAdd_update {α : Type} (A B : List (String × List α)) (name : String)
    (u vs : List α) (h : name ∉ A.map Prod.fst) :
    bufAdd (A ++ (name, u) :: B) name vs = A ++ (name, u ++ vs) :: B := by
  induction A with
  | nil => simp [bufAdd]
  | cons q rest ih =>
    obtain ⟨n, w⟩ := q
    simp only [List.map_cons, List.mem_cons] at h
    push_neg at h
    simp only [List.cons_append, bufAdd, if_neg (Ne.symm h.1), List.append_eq]
    rw [ih h.2]

/-- Folding window slices into an empty buffer inserts one entry per
column, in column order. -/
theorem fold_bufAdd_fresh {α : Type} (g : String × List α → List α) :
    ∀ (ws done : List (String × List α)),
      (done.map Prod.fst ++ ws.map Prod.fst).Nodup →
      ws.foldl (fun b p => bufAdd b p.1 (g p)) done
        = done ++ ws.map (fun p => (p.1, g p)) := by
  intro ws
  induction ws with
  | nil => intro done _; simp
  | cons w rest ih =>
    intro done hnd
    obtain ⟨nm, vs⟩ := w
    have hmem : nm ∉ done.map Prod.fst := by
      rcases List.nodup_append.mp hnd with ⟨_, _, hdisj⟩
      intro hin
      exact hdisj hin (by simp)
    simp only [List.foldl_cons]
    rw [bufAdd_fresh done nm (g (nm, vs)) hmem]
    rw [ih (done ++ [(nm, g (nm, vs))]) (by
      simp only [List.map_append, List.map_cons, List.map_nil] at hnd ⊢
      simpa [List.append_assoc] using hnd)]
    simp

/-- Folding window slices into a buffer holding exactly the same columns
appends each slice to its column's entry, preserving order. -/
theorem fold_bufAdd_update {α : Type} (f g : String × List α → List α) :
    ∀ (ws A : List (String × List α)),
      ((A.map Prod.fst ++ ws.map Prod.fst).Nodup) →
      ws.foldl (fun b p => bufAdd b p.1 (g p))
          (A.map (fun p => (p.1, f p ++ g p)) ++ ws.map (fun p => (p.1, f p)))
        = (A ++ ws).map (fun p => (p.1, f p ++ g p)) := by
  intro ws
  induction ws with
  | nil => intro A _; simp
  | cons w rest ih =>
    intro A hnd
    obtain ⟨nm, vs⟩ := w
    have hmem : nm ∉ (A.map (fun p => (p.1, f p ++ g p))).map Prod.fst := by
      rcases List.nodup_append.mp hnd with ⟨_, _, hdisj⟩
      intro hin
      have hin' : nm ∈ A.map Prod.fst := by
        rw [List.map_map] at hin
        simpa using hin
      exact hdisj hin' (by simp)
    simp only [List.map_cons, List.foldl_cons, List.cons_append]
    rw [show (nm, f (nm, vs)) = ((nm : String), f (nm, vs)) from rfl]
    rw [bufAdd_update (A.map (fun p => (p.1, f p ++ g p)))
      (rest.map (fun p => (p.1, f p))) nm (f (nm, vs)) (g (nm, vs)) hmem]
    have hnd' : ((A ++ [(nm, vs)]).map Prod.fst ++ rest.map Prod.fst).Nodup := by
      simp only [List.map_append, List.map_cons, List.map_nil] at hnd ⊢
      simpa [List.append_assoc] using hnd
    have := ih (A ++ [(nm, vs)]) hnd'
    simp only [List.map_append, List.map_cons, List.map_nil,
      List.append_assoc, List.singleton_append] at this ⊢
    exact this

/-- After the windows from `start` onward are processed, a buffer holding
the first `start` rows of every column becomes the full table. -/
theorem fetchFrom {α : Type} (cols : List (String × List α)) (numRows cs : Nat)
    (hcs : cs ≠ 0) (hnd : (cols.map Prod.fst).Nodup)
    (hlen : ∀ p ∈ cols, p.2.length = numRows) :
    ∀ (k s : Nat), numRows - s ≤ k →
      ((rangeStep s numRows cs).map
          (fun st => (st, min (st + cs) numRows))).foldl (fetchStep cols)
        (cols.map (fun p => (p.1, p.2.take s)), List.range' 0 (min s numRows))
      = (cols, List.range' 0 numRows) := by
  have hdone : ∀ s : Nat, numRows ≤ s →
      ((cols.map (fun p => (p.1, p.2.take s)), List.range' 0 (min s numRows))
        : List (String × List α) × List Nat)
      = (cols, List.range' 0 numRows) := by
    intro s hs
    have h1 : cols.map (fun p => (p.1, p.2.take s)) = cols := by
      have : cols.map (fun p => (p.1, p.2.take s))
          = cols.map (fun p => p) := by
        apply List.map_congr_left
        intro p hp
        rw [List.take_of_length_le (by rw [hlen p hp]; exact hs)]
      simpa using this
    have h2 : min s numRows = numRows := by omega
    rw [h1, h2]
  intro k
  induction k with
  | zero =>
    intro s hs
    rw [rangeStep_nil s numRows cs (Or.inr (by omega))]
    simpa using hdone s (by omega)
  | succ k ih =>
    intro s hs
    by_cases hstop : numRows ≤ s
    · rw [rangeStep_nil s numRows cs (Or.inr hstop)]
      simpa using hdone s hstop
    · push_neg at hstop
      rw [rangeStep_cons s numRows cs hcs hstop]
      simp only [List.map_cons, List.foldl_cons]
      have hstep : fetchStep cols
          (cols.map (fun p => (p.1, p.2.take s)), List.range' 0 (min s numRows))
          (s, min (s + cs) numRows)
          = (cols.map (fun p => (p.1, p.2.take (s + cs))),
             List.range' 0 (min (s + cs) numRows)) := by
        simp only [fetchStep, readWindow, Prod.mk.injEq]
        constructor
        · rw [List.foldl_map]
          have := fold_bufAdd_update
            (fun p : String × List α => p.2.take s)
            (fun p : String × List α => (p.2.drop s).take (min (s + cs) numRows - s))
            cols [] (by simpa using hnd)
          simp only [List.map_nil, List.nil_append] at this
          rw [this]
          apply List.map_congr_left
          intro p hp
          have hplen := hlen p hp
          have htake : p.2.take s ++ (p.2.drop s).take (min (s + cs) numRows - s)
              = p.2.take (s + (min (s + cs) numRows - s)) := by
            rw [List.take_add p.2 s (min (s + cs) numRows - s)]
          rw [htake]
          have : p.2.take (s + (min (s + cs) numRows - s)) = p.2.take (s + cs) := by
            rw [List.take_eq_take]
            rw [hplen]
            omega
          rw [this]
        · have hmin : min s numRows = s := by omega
          rw [hmin]
          have := List.range'_append 0 s (min (s + cs) numRows - s) 1
          simp only [Nat.one_mul, Nat.zero_add] at this
          rw [this]
          congr 1
          omega
      rw [hstep]
      exact ih (s + cs) (by omega)

/-- With at least one row, the full-range fetch loop reconstructs exactly
the table's columns, in order, with row numbers `0..rowCount-1` — for every
positive chunk size. -/
theorem fetchAll_canonical {α : Type} (cols : List (String × List α))
    (numRows cs : Nat) (hcs : 1 ≤ cs) (hrows : 1 ≤ numRows)
    (hnd : (cols.map Prod.fst).Nodup)
    (hlen : ∀ p ∈ cols, p.2.length = numRows) :
    fetchAll cols numRows cs = (cols, List.range' 0 numRows) := by
  have hcs0 : cs ≠ 0 := by omega
  simp only [fetchAll, fetchWindows]
  rw [rangeStep_cons 0 numRows cs hcs0 (by omega)]
  simp only [List.map_cons, List.foldl_cons]
  have hstep : fetchStep cols (([], []) : List (String × List α) × List Nat)
      (0, min (0 + cs) numRows)
      = (cols.map (fun p => (p.1, p.2.take cs)),
         List.range' 0 (min cs numRows)) := by
    simp only [fetchStep, readWindow, Prod.mk.injEq]
    constructor
    · rw [List.foldl_map]
      have := fold_bufAdd_fresh
        (fun p : String × List α => (p.2.drop 0).take (min (0 + cs) numRows - 0))
        cols [] (by simpa using hnd)
      simp only [List.nil_append] at this
      rw [this]
      apply List.map_congr_left
      intro p hp
      have hplen := hlen p hp
      simp only [List.drop_zero, Nat.sub_zero, Nat.zero_add]
      have htk : p.2.take (min cs numRows) = p.2.take cs := by
        rw [List.take_eq_take, hplen]
        omega
      rw [htk]
    · simp only [List.nil_append, Nat.zero_add, Nat.sub_zero]
  rw [hstep]
  simp only [Nat.zero_add]
  exact fetchFrom cols numRows cs hcs0 hnd hlen numRows cs (by omega)

/-- The starts of the fetched windows advance by exactly the chunk size. -/
theorem rangeStep_chain (stop cs : Nat) (hcs : cs ≠ 0) :
    ∀ (k s : Nat), stop - s ≤ k →
      List.Chain' (fun a b => b = a + cs) (rangeStep s stop cs) := by
  intro k
  induction k with
  | zero =>
    intro s hs
    rw [rangeStep_nil s stop cs (Or.inr (by omega))]
    exact List.chain'_nil
  | succ k ih =>
    intro s hs
    by_cases hstop : stop ≤ s
    · rw [rangeStep_nil s stop cs (Or.inr hstop)]
      exact List.chain'_nil
    · push_neg at hstop
      rw [rangeStep_cons s stop cs hcs hstop]
      refine List.chain'_cons'.mpr ⟨?_, ih (s + cs) (by omega)⟩
      intro y hy
      by_cases hnext : stop ≤ s + cs
      · rw [rangeStep_nil (s + cs) stop cs (Or.inr hnext)] at hy
        simp at hy
      · push_neg at hnext
        rw [rangeStep_cons (s + cs) stop cs hcs hnext] at hy
        simp at hy
        omega

/-- Claim C1: for every table (distinct column names, all columns of the
table's row count) and every chunk size in `[1, rowCount]`, the full-range
`read_table` loop produces exactly the same DataFrame — same columns in
the same order, same values, same row index labels — as a single fetch
whose chunk size is at least `rowCount`; moreover the windows are the
consecutive intervals `[start, min(start + chunkSize, rowCount))` issued in
increasing start order beginning at 0. -/
theorem claim1_chunked_fetch {α : Type} (cols : List (String × List α))
    (numRows cs csBig : Nat)
    (hnd : (cols.map Prod.fst).Nodup)
    (hlen : ∀ p ∈ cols, p.2.length = numRows)
    (hcs1 : 1 ≤ cs) (hcs2 : cs ≤ numRows) (hbig : numRows ≤ csBig) :
    readTableModel cols numRows cs = readTableModel cols numRows csBig ∧
    List.Chain' (fun a b : Nat × Nat => b.1 = a.1 + cs)
      (fetchWindows numRows cs) ∧
    (∀ w ∈ fetchWindows numRows cs, w.2 = min (w.1 + cs) numRows) ∧
    (fetchWindows numRows cs).head? = some (0, min cs numRows) := by
  have hrows : 1 ≤ numRows := le_trans hcs1 hcs2
  refine ⟨?_, ?_, ?_, ?_⟩
  · simp only [readTableModel]
    rw [fetchAll_canonical cols numRows cs hcs1 hrows hnd hlen,
        fetchAll_canonical cols numRows csBig (le_trans hrows hbig) hrows hnd hlen]
  · simp only [fetchWindows]
    rw [List.chain'_map]
    exact rangeStep_chain numRows cs (by omega) numRows 0 (by omega)
  · intro w hw
    simp only [fetchWindows, List.mem_map] at hw
    obtain ⟨st, _, rfl⟩ := hw
    rfl
  · simp only [fetchWindows]
    rw [rangeStep_cons 0 numRows cs (by omega) (by omega)]
    simp

/-- Witness for C1 on a 3-row, 2-column integer table with chunk size 2
against a single fetch of chunk size 5. -/
theorem claim1_witness :
    readTableModel [("a", [10, 20, 30]), ("b", [40, 50, 60])] 3 2
      = readTableModel ([("a", [10, 20, 30]), ("b", [40, 50, 60])]
          : List (String × List Int)) 3 5 ∧
    List.Chain' (fun a b : Nat × Nat => b.1 = a.1 + 2) (fetchWindows 3 2) ∧
    (∀ w ∈ fetchWindows 3 2, w.2 = min (w.1 + 2) 3) ∧
    (fetchWindows 3 2).head? = some (0, min 2 3) :=
  claim1_chunked_fetch [("a", [10, 20, 30]), ("b", [40, 50, 60])] 3 2 5
    (by decide) (by decide) (by decide) (by decide) (by decide)

end Omero2Pandas
